import Mathlib

/-!
# Verification of the training-center data-layer conventions

A shallow embedding of the soft-delete / slug / timestamp data-layer of the
course platform, translated from the Python source:

* `core/models.py` — `TimestampedModel`, `SoftDeleteModel` (instance
  `delete` / `restore` / `hard_delete` with `update_fields` partial writes);
* `core/managers.py` — `SoftDeleteQuerySet` (bulk `soft_delete` / `restore`
  via `QuerySet.update`, `with_counts`), `SoftDeleteManager`,
  `AllObjectsManager`;
* `core/mixins.py` — `SlugMixin` (`_generate_base_slug`,
  `_generate_unique_slug`, `save`);
* `courses/managers.py` — `CourseQuerySet.with_full_counts`;
* `courses/models.py`, `enrollments/models.py`, `enrollments/views.py` —
  `Course`/`Module`/`Lesson`, `Enrollment` (PROTECT foreign keys,
  `get_or_create` based enrollment), `LessonProgress.save`.

Timestamps are modelled as natural numbers; nullable columns as `Option`;
a database table as a `List` of rows.  Django's `QuerySet.update` writes
exactly the given columns at the storage level (bypassing `save()`, hence
bypassing `auto_now`), while `Model.save(update_fields=[...])` writes the
named columns of the in-memory instance with `auto_now` refreshing
`updated_at`; both are modelled as `List.map` over the table touching only
the corresponding fields.
-/

namespace TrainingCenter

/-- A stored row of a soft-deletable entity (`SoftDeleteModel` in
`core/models.py`).  `payload` stands for the entity's other columns
(title, description, …), which the soft-delete machinery never touches. -/
structure SDRecord where
  pk : Nat
  payload : String
  created_at : Nat
  updated_at : Nat
  is_deleted : Bool
  deleted_at : Option Nat
  deriving DecidableEq, Repr

/-- `SoftDeleteModel.delete` (core/models.py): sets `is_deleted = True`,
`deleted_at = now()` on the instance and calls
`save(update_fields=["is_deleted", "deleted_at", "updated_at"])`, so the
stored row is updated only in those three columns (`updated_at` refreshed
by `auto_now`); all other stored columns keep their stored values.
Returns the mutated instance together with the updated table. -/
def instanceDelete (db : List SDRecord) (inst : SDRecord) (now : Nat) :
    SDRecord × List SDRecord :=
  let inst' := { inst with is_deleted := true, deleted_at := some now, updated_at := now }
  (inst', db.map fun r =>
    if r.pk = inst.pk then
      { r with is_deleted := inst'.is_deleted, deleted_at := inst'.deleted_at,
               updated_at := inst'.updated_at }
    else r)

/-- `SoftDeleteModel.restore` (core/models.py): clears `is_deleted` and
`deleted_at` on the instance and persists the same three columns. -/
def instanceRestore (db : List SDRecord) (inst : SDRecord) (now : Nat) :
    SDRecord × List SDRecord :=
  let inst' := { inst with is_deleted := false, deleted_at := none, updated_at := now }
  (inst', db.map fun r =>
    if r.pk = inst.pk then
      { r with is_deleted := inst'.is_deleted, deleted_at := inst'.deleted_at,
               updated_at := inst'.updated_at }
    else r)

/-- `SoftDeleteManager.get_queryset` (core/managers.py): the default
`objects` view, `filter(is_deleted=False)`. -/
def objectsView (db : List SDRecord) : List SDRecord :=
  db.filter fun r => !r.is_deleted

/-- `AllObjectsManager.get_queryset` (core/managers.py): the unfiltered
`all_objects` view. -/
def allObjectsView (db : List SDRecord) : List SDRecord :=
  db

/-- `SoftDeleteManager.deleted_only` / `SoftDeleteQuerySet.deleted`
(core/managers.py): only tombstoned rows. -/
def deletedOnlyView (db : List SDRecord) : List SDRecord :=
  db.filter fun r => r.is_deleted

/-- `SoftDeleteQuerySet.soft_delete` (core/managers.py):
`self.update(is_deleted=True, deleted_at=timezone.now())` on the rows the
queryset's filter (`pred`) selects.  `QuerySet.update` is a direct
storage-level `UPDATE`: it writes exactly the two named columns and does
not run `save()`, so `updated_at`'s `auto_now` does not fire.  Returns the
number of rows matched, as Django's `update` does. -/
def bulkSoftDelete (db : List SDRecord) (pred : SDRecord → Bool) (now : Nat) :
    Nat × List SDRecord :=
  ((db.filter pred).length,
   db.map fun r =>
     if pred r then { r with is_deleted := true, deleted_at := some now } else r)

/-- `SoftDeleteQuerySet.restore` (core/managers.py):
`self.update(is_deleted=False, deleted_at=None)`. -/
def bulkRestore (db : List SDRecord) (pred : SDRecord → Bool) :
    Nat × List SDRecord :=
  ((db.filter pred).length,
   db.map fun r =>
     if pred r then { r with is_deleted := false, deleted_at := none } else r)

/-- The soft-delete invariant of the spec: `is_deleted == true ⇔
deleted_at != null`. -/
def softDeleteInvariant (r : SDRecord) : Prop :=
  r.is_deleted = true ↔ r.deleted_at ≠ none

instance (r : SDRecord) : Decidable (softDeleteInvariant r) := by
  unfold softDeleteInvariant; infer_instance

/-- C1: soft-deleting a record removes it from the default (`objects`)
view, keeps it in the `all_objects` view, and restoring it brings it back
into the default view. -/
theorem C1_soft_delete_view_roundtrip (db : List SDRecord) (inst : SDRecord)
    (now now' : Nat) (hmem : inst ∈ db) :
    (∀ r ∈ objectsView (instanceDelete db inst now).2, r.pk ≠ inst.pk) ∧
    (∃ r ∈ allObjectsView (instanceDelete db inst now).2, r.pk = inst.pk) ∧
    (∃ r ∈ objectsView
        (instanceRestore (instanceDelete db inst now).2
          (instanceDelete db inst now).1 now').2, r.pk = inst.pk) := by
  refine ⟨?_, ?_, ?_⟩
  · intro r hr
    simp only [objectsView, instanceDelete, List.mem_filter, List.mem_map] at hr
    obtain ⟨⟨s, hs, rfl⟩, hactive⟩ := hr
    by_cases h : s.pk = inst.pk
    · simp [h] at hactive
    · simp [h]
  · refine ⟨{ inst with is_deleted := true, deleted_at := some now, updated_at := now },
      ?_, rfl⟩
    simp only [allObjectsView, instanceDelete, List.mem_map]
    exact ⟨inst, hmem, by simp⟩
  · refine ⟨{ inst with is_deleted := false, deleted_at := none, updated_at := now' },
      ?_, rfl⟩
    simp only [objectsView, instanceRestore, instanceDelete, List.mem_filter,
      List.mem_map]
    refine ⟨⟨{ inst with is_deleted := true, deleted_at := some now, updated_at := now },
      ⟨inst, hmem, by simp⟩, by simp⟩, by simp⟩

/-- C1 witness: a concrete one-row table. -/
theorem C1_soft_delete_view_roundtrip_witness :
    (∀ r ∈ objectsView
        (instanceDelete [⟨1, "p", 0, 0, false, none⟩] ⟨1, "p", 0, 0, false, none⟩ 5).2,
      r.pk ≠ 1) ∧
    (∃ r ∈ allObjectsView
        (instanceDelete [⟨1, "p", 0, 0, false, none⟩] ⟨1, "p", 0, 0, false, none⟩ 5).2,
      r.pk = 1) ∧
    (∃ r ∈ objectsView
        (instanceRestore
          (instanceDelete [⟨1, "p", 0, 0, false, none⟩] ⟨1, "p", 0, 0, false, none⟩ 5).2
          (instanceDelete [⟨1, "p", 0, 0, false, none⟩] ⟨1, "p", 0, 0, false, none⟩ 5).1
          7).2, r.pk = 1) :=
  C1_soft_delete_view_roundtrip [⟨1, "p", 0, 0, false, none⟩]
    ⟨1, "p", 0, 0, false, none⟩ 5 7 (by decide)

/-- C2: every soft-delete operation — instance `delete`, instance
`restore`, bulk `soft_delete`, bulk `restore` — preserves the invariant
`is_deleted = true ↔ deleted_at ≠ null` across the whole table, and the
mutated instance satisfies it too. -/
theorem C2_invariant_preserved (db : List SDRecord) (inst : SDRecord)
    (pred : SDRecord → Bool) (now : Nat)
    (hinv : ∀ r ∈ db, softDeleteInvariant r) :
    (∀ r ∈ (instanceDelete db inst now).2, softDeleteInvariant r) ∧
    softDeleteInvariant (instanceDelete db inst now).1 ∧
    (∀ r ∈ (instanceRestore db inst now).2, softDeleteInvariant r) ∧
    softDeleteInvariant (instanceRestore db inst now).1 ∧
    (∀ r ∈ (bulkSoftDelete db pred now).2, softDeleteInvariant r) ∧
    (∀ r ∈ (bulkRestore db pred).2, softDeleteInvariant r) := by
  refine ⟨?_, by simp [instanceDelete, softDeleteInvariant], ?_,
    by simp [instanceRestore, softDeleteInvariant], ?_, ?_⟩ <;>
    · intro r hr
      simp only [instanceDelete, instanceRestore, bulkSoftDelete, bulkRestore,
        List.mem_map] at hr
      obtain ⟨s, hs, rfl⟩ := hr
      split
      · simp [softDeleteInvariant]
      · exact hinv s hs

/-- C2 witness: concrete table, instance, predicate and time. -/
theorem C2_invariant_preserved_witness :
    (∀ r ∈ (instanceDelete [⟨1, "p", 0, 0, false, none⟩] ⟨1, "p", 0, 0, false, none⟩ 4).2,
      softDeleteInvariant r) ∧
    softDeleteInvariant
      (instanceDelete [⟨1, "p", 0, 0, false, none⟩] ⟨1, "p", 0, 0, false, none⟩ 4).1 ∧
    (∀ r ∈ (instanceRestore [⟨1, "p", 0, 0, false, none⟩] ⟨1, "p", 0, 0, false, none⟩ 4).2,
      softDeleteInvariant r) ∧
    softDeleteInvariant
      (instanceRestore [⟨1, "p", 0, 0, false, none⟩] ⟨1, "p", 0, 0, false, none⟩ 4).1 ∧
    (∀ r ∈ (bulkSoftDelete [⟨1, "p", 0, 0, false, none⟩] (fun _ => true) 4).2,
      softDeleteInvariant r) ∧
    (∀ r ∈ (bulkRestore [⟨1, "p", 0, 0, false, none⟩] (fun _ => true)).2,
      softDeleteInvariant r) :=
  C2_invariant_preserved [⟨1, "p", 0, 0, false, none⟩] ⟨1, "p", 0, 0, false, none⟩
    (fun _ => true) 4 (by decide)

/-- C8: instance `delete` is a partial write.  The mutated instance has
`is_deleted = true`, `deleted_at = now`; in the table, the row with the
instance's pk is updated only in `is_deleted`, `deleted_at`, `updated_at`
— its `payload` and `created_at` keep their *stored* values (even when the
in-memory instance holds different ones) — and every other row is
untouched. -/
theorem C8_instance_delete_partial_write (db : List SDRecord)
    (inst : SDRecord) (now : Nat) :
    (instanceDelete db inst now).1 =
      { inst with is_deleted := true, deleted_at := some now, updated_at := now } ∧
    (instanceDelete db inst now).2.length = db.length ∧
    ∀ r ∈ db,
      (r.pk = inst.pk →
        { r with is_deleted := true, deleted_at := some now, updated_at := now }
          ∈ (instanceDelete db inst now).2) ∧
      (r.pk ≠ inst.pk → r ∈ (instanceDelete db inst now).2) := by
  refine ⟨rfl, by simp [instanceDelete], ?_⟩
  intro r hr
  constructor
  · intro h
    simp only [instanceDelete, List.mem_map]
    exact ⟨r, hr, by simp [h]⟩
  · intro h
    simp only [instanceDelete, List.mem_map]
    exact ⟨r, hr, by simp [h]⟩

/-- C8 witness: a stale instance (different payload) does not clobber the
stored payload. -/
theorem C8_instance_delete_partial_write_witness :
    (instanceDelete [⟨1, "stored", 0, 0, false, none⟩, ⟨2, "other", 0, 0, false, none⟩]
        ⟨1, "stale", 0, 0, false, none⟩ 9).1 =
      ⟨1, "stale", 0, 9, true, some 9⟩ ∧
    (instanceDelete [⟨1, "stored", 0, 0, false, none⟩, ⟨2, "other", 0, 0, false, none⟩]
        ⟨1, "stale", 0, 0, false, none⟩ 9).2.length = 2 ∧
    ∀ r ∈ [⟨1, "stored", 0, 0, false, none⟩, (⟨2, "other", 0, 0, false, none⟩ : SDRecord)],
      (r.pk = 1 →
        { r with is_deleted := true, deleted_at := some 9, updated_at := 9 }
          ∈ (instanceDelete [⟨1, "stored", 0, 0, false, none⟩, ⟨2, "other", 0, 0, false, none⟩]
              ⟨1, "stale", 0, 0, false, none⟩ 9).2) ∧
      (r.pk ≠ 1 →
        r ∈ (instanceDelete [⟨1, "stored", 0, 0, false, none⟩, ⟨2, "other", 0, 0, false, none⟩]
              ⟨1, "stale", 0, 0, false, none⟩ 9).2) :=
  C8_instance_delete_partial_write
    [⟨1, "stored", 0, 0, false, none⟩, ⟨2, "other", 0, 0, false, none⟩]
    ⟨1, "stale", 0, 0, false, none⟩ 9

/-- C10: the bulk `soft_delete` / `restore` operations return the count of
matched rows and mutate only `is_deleted` and `deleted_at` of the matched
rows: `updated_at` (and every other column) is left unchanged — unlike the
instance-level operations, which refresh `updated_at` — because
`QuerySet.update` writes the columns directly without calling `save()`. -/
theorem C10_bulk_update_frame (db : List SDRecord) (pred : SDRecord → Bool)
    (now : Nat) :
    (bulkSoftDelete db pred now).1 = (db.filter pred).length ∧
    (bulkRestore db pred).1 = (db.filter pred).length ∧
    ∀ r ∈ db,
      (pred r = true →
        { r with is_deleted := true, deleted_at := some now }
            ∈ (bulkSoftDelete db pred now).2 ∧
        { r with is_deleted := false, deleted_at := none }
            ∈ (bulkRestore db pred).2) ∧
      (pred r = false →
        r ∈ (bulkSoftDelete db pred now).2 ∧ r ∈ (bulkRestore db pred).2) := by
  refine ⟨rfl, rfl, ?_⟩
  intro r hr
  constructor
  · intro h
    constructor <;>
      · simp only [bulkSoftDelete, bulkRestore, List.mem_map]
        exact ⟨r, hr, by simp [h]⟩
  · intro h
    constructor <;>
      · simp only [bulkSoftDelete, bulkRestore, List.mem_map]
        exact ⟨r, hr, by simp [h]⟩

/-- C10 witness: two rows, predicate matching the first only; the matched
row's `updated_at` stays 3. -/
theorem C10_bulk_update_frame_witness :
    (bulkSoftDelete [⟨1, "a", 0, 3, false, none⟩, ⟨2, "b", 0, 4, false, none⟩]
        (fun r => r.pk = 1) 9).1 = 1 ∧
    (bulkRestore [⟨1, "a", 0, 3, false, none⟩, ⟨2, "b", 0, 4, false, none⟩]
        (fun r => r.pk = 1)).1 = 1 ∧
    ∀ r ∈ [⟨1, "a", 0, 3, false, none⟩, (⟨2, "b", 0, 4, false, none⟩ : SDRecord)],
      ((fun (r : SDRecord) => decide (r.pk = 1)) r = true →
        { r with is_deleted := true, deleted_at := some 9 }
            ∈ (bulkSoftDelete [⟨1, "a", 0, 3, false, none⟩, ⟨2, "b", 0, 4, false, none⟩]
                (fun r => r.pk = 1) 9).2 ∧
        { r with is_deleted := false, deleted_at := none }
            ∈ (bulkRestore [⟨1, "a", 0, 3, false, none⟩, ⟨2, "b", 0, 4, false, none⟩]
                (fun r => r.pk = 1)).2) ∧
      ((fun (r : SDRecord) => decide (r.pk = 1)) r = false →
        r ∈ (bulkSoftDelete [⟨1, "a", 0, 3, false, none⟩, ⟨2, "b", 0, 4, false, none⟩]
              (fun r => r.pk = 1) 9).2 ∧
        r ∈ (bulkRestore [⟨1, "a", 0, 3, false, none⟩, ⟨2, "b", 0, 4, false, none⟩]
              (fun r => r.pk = 1)).2) := by
  have h := C10_bulk_update_frame
    [⟨1, "a", 0, 3, false, none⟩, ⟨2, "b", 0, 4, false, none⟩]
    (fun r => decide (r.pk = 1)) 9
  exact ⟨h.1, h.2.1, h.2.2⟩

/-! ## Slug assignment (`core/mixins.py`, `SlugMixin`)

`django.utils.text.slugify(value)` (with `allow_unicode=False`) does, for
ASCII input (the NFKD-normalise / ASCII-encode step is the identity there):
lowercase; delete every character matching `[^\w\s-]`; replace each run
matching `[-\s]+` by a single `-`; strip `-` and `_` from both ends. -/

/-- A character matched by the regex class `[-\s]`. -/
def isSep (c : Char) : Bool :=
  c == '-' || c.isWhitespace

/-- A character *kept* by `re.sub(r"[^\w\s-]", "", ·)`: word characters
(alphanumeric or `_`), whitespace, and `-`. -/
def isKept (c : Char) : Bool :=
  c.isAlphanum || c == '_' || c.isWhitespace || c == '-'

/-- `re.sub(r"[-\s]+", "-", ·)`: collapse each run of separator characters
into a single `-`.  The flag records whether the previous character was
part of a separator run. -/
def collapseSeps : Bool → List Char → List Char
  | _, [] => []
  | prevSep, c :: cs =>
    if isSep c then
      if prevSep then collapseSeps true cs
      else '-' :: collapseSeps true cs
    else c :: collapseSeps false cs

/-- A character stripped from the ends by `.strip("-_")`. -/
def isStripped (c : Char) : Bool :=
  c == '-' || c == '_'

/-- `.strip("-_")`: drop `-` and `_` from both ends. -/
def stripEnds (l : List Char) : List Char :=
  ((l.dropWhile isStripped).reverse.dropWhile isStripped).reverse

/-- `django.utils.text.slugify` on ASCII input. -/
def slugify (s : String) : String :=
  String.mk (stripEnds (collapseSeps false ((s.data.map Char.toLower).filter isKept)))

/-- A stored row of a sluggable entity (`Course`).  `pk` is `none` before
the first `INSERT`.  Soft-deleted rows stay in the table. -/
structure SlugRecord where
  pk : Option Nat
  title : String
  slug : String
  is_deleted : Bool
  deriving DecidableEq, Repr

/-- Python's `str.strip()`: drop whitespace from both ends. -/
def pyStrip (s : String) : String :=
  String.mk (((s.data.dropWhile Char.isWhitespace).reverse.dropWhile
    Char.isWhitespace).reverse)

/-- `SlugMixin._get_slug_source_value`: the source field's value,
`str(...).strip()`-ed. -/
def slugSourceValue (r : SlugRecord) : String :=
  pyStrip r.title

/-- `SlugMixin._generate_base_slug`: slugify the source value; if that is
empty, fall back to the first 8 characters of a fresh `uuid4` string
(`str(uuid.uuid4())[:8]`), supplied here as the parameter `uuidTok`. -/
def generateBaseSlug (r : SlugRecord) (uuidTok : String) : String :=
  let base := slugify (slugSourceValue r)
  if base = "" then String.mk (uuidTok.data.take 8) else base

/-- Little-endian decimal digits of `n`, carrying fuel so that the
recursion is structural; `fuel = n` is always enough. -/
def toDigitsAux : Nat → Nat → List Nat
  | 0, _ => []
  | fuel + 1, n => if n = 0 then [] else (n % 10) :: toDigitsAux fuel (n / 10)

/-- Little-endian decimal digits of `n`. -/
def natDigits (n : Nat) : List Nat :=
  toDigitsAux n n

/-- The decimal representation of a counter, as Python's f-string
formatting produces it. -/
def natRepr (n : Nat) : String :=
  String.mk ((natDigits n).reverse.map Nat.digitChar)

/-- The candidate sequence tried by `SlugMixin._generate_unique_slug`'s
`while` loop: first the base slug itself, then `base-2`, `base-3`, …
(`slug = f"{base_slug}-{counter}"` with `counter` starting at 2). -/
def slugCandidate (base : String) : Nat → String
  | 0 => base
  | i + 1 => base ++ "-" ++ natRepr (i + 2)

/-- The `while qs.filter(slug=slug).exists()` loop of
`SlugMixin._generate_unique_slug`, walking the candidate sequence until a
candidate is not among the occupied slugs.  The Python loop is unbounded;
here it carries fuel, and `slugSearch_spec` below shows that fuel
`occupied.length + 1` is never exhausted before a free candidate is found,
so the two agree. -/
def slugSearch (occupied : List String) (base : String) : Nat → Nat → String
  | 0, i => slugCandidate base i
  | fuel + 1, i =>
    if slugCandidate base i ∈ occupied then slugSearch occupied base fuel (i + 1)
    else slugCandidate base i

/-- The slugs the uniqueness check runs against:
`ModelClass.all_objects.all().exclude(pk=self.pk)` — *all* rows, the
soft-deleted ones included, minus the record's own row. -/
def occupiedSlugs (db : List SlugRecord) (selfPk : Option Nat) : List String :=
  (db.filter fun r => r.pk ≠ selfPk).map fun r => r.slug

/-- `SlugMixin._generate_unique_slug`. -/
def generateUniqueSlug (db : List SlugRecord) (self : SlugRecord)
    (uuidTok : String) : String :=
  let occ := occupiedSlugs db self.pk
  slugSearch occ (generateBaseSlug self uuidTok) (occ.length + 1) 0

/-- `SlugMixin.save`: assign a slug only when the field is still empty;
then hand over to `super().save()` (persistence itself is not needed for
the slug claims, so the saved instance is returned). -/
def slugMixinSave (db : List SlugRecord) (self : SlugRecord)
    (uuidTok : String) : SlugRecord :=
  if self.slug = "" then
    { self with slug := generateUniqueSlug db self uuidTok }
  else self

theorem digitChar_inj {a b : Nat} (ha : a < 10) (hb : b < 10)
    (h : Nat.digitChar a = Nat.digitChar b) : a = b := by
  interval_cases a <;> interval_cases b <;> simp_all [Nat.digitChar]

theorem map_digitChar_inj : ∀ {l₁ l₂ : List Nat}, (∀ x ∈ l₁, x < 10) →
    (∀ x ∈ l₂, x < 10) → l₁.map Nat.digitChar = l₂.map Nat.digitChar → l₁ = l₂
  | [], [], _, _, _ => rfl
  | [], _ :: _, _, _, h => by simp at h
  | _ :: _, [], _, _, h => by simp at h
  | a :: l₁, b :: l₂, h₁, h₂, h => by
    simp only [List.map_cons, List.cons.injEq] at h
    have hd := digitChar_inj (h₁ a (by simp)) (h₂ b (by simp)) h.1
    have tl := map_digitChar_inj (fun x hx => h₁ x (by simp [hx]))
      (fun x hx => h₂ x (by simp [hx])) h.2
    rw [hd, tl]

theorem ofDigits_toDigitsAux : ∀ fuel n, n ≤ fuel →
    Nat.ofDigits 10 (toDigitsAux fuel n) = n := by
  intro fuel
  induction fuel with
  | zero =>
    intro n hn
    have : n = 0 := Nat.le_zero.mp hn
    simp [toDigitsAux, this, Nat.ofDigits_nil]
  | succ fuel ih =>
    intro n hn
    by_cases h0 : n = 0
    · simp [toDigitsAux, h0, Nat.ofDigits_nil]
    · have hdiv : n / 10 ≤ fuel := by
        have : n / 10 < n := Nat.div_lt_self (Nat.pos_of_ne_zero h0) (by norm_num)
        omega
      simp only [toDigitsAux, h0, if_false, Nat.ofDigits_cons, ih _ hdiv]
      omega

theorem toDigitsAux_lt : ∀ fuel n d, d ∈ toDigitsAux fuel n → d < 10 := by
  intro fuel
  induction fuel with
  | zero => intro n d hd; simp [toDigitsAux] at hd
  | succ fuel ih =>
    intro n d hd
    by_cases h0 : n = 0
    · simp [toDigitsAux, h0] at hd
    · simp only [toDigitsAux, h0, if_false, List.mem_cons] at hd
      rcases hd with h | h
      · exact h ▸ Nat.mod_lt n (by norm_num)
      · exact ih _ d h

theorem natRepr_injective : Function.Injective natRepr := by
  intro m n h
  have hdata : (natDigits m).reverse.map Nat.digitChar =
      (natDigits n).reverse.map Nat.digitChar := congrArg String.data h
  have hdig : (natDigits m).reverse = (natDigits n).reverse :=
    map_digitChar_inj
      (fun x hx => toDigitsAux_lt m m x (List.mem_reverse.mp hx))
      (fun x hx => toDigitsAux_lt n n x (List.mem_reverse.mp hx)) hdata
  have hrev := List.reverse_injective hdig
  calc m = Nat.ofDigits 10 (natDigits m) := (ofDigits_toDigitsAux m m le_rfl).symm
    _ = Nat.ofDigits 10 (natDigits n) := by rw [natDigits] at hrev ⊢; rw [hrev]
    _ = n := ofDigits_toDigitsAux n n le_rfl

theorem slugCandidate_injective (base : String) :
    Function.Injective (slugCandidate base) := by
  intro i j h
  match i, j with
  | 0, 0 => rfl
  | 0, j + 1 =>
    have := congrArg (fun s => s.data.length) h
    simp [slugCandidate, String.data_append] at this
  | i + 1, 0 =>
    have := congrArg (fun s => s.data.length) h
    simp [slugCandidate, String.data_append] at this
  | i + 1, j + 1 =>
    simp only [slugCandidate] at h
    have hdata := congrArg String.data h
    simp only [String.data_append] at hdata
    have hrepr : natRepr (i + 2) = natRepr (j + 2) :=
      String.ext (List.append_cancel_left hdata)
    have := natRepr_injective hrepr
    omega

theorem exists_free_candidate (occ : List String) (base : String) :
    ∃ i, i ≤ occ.length ∧ slugCandidate base i ∉ occ := by
  by_contra hall
  push_neg at hall
  have hsub : (List.range (occ.length + 1)).map (slugCandidate base) ⊆ occ := by
    intro s hs
    obtain ⟨i, hi, rfl⟩ := List.mem_map.mp hs
    exact hall i (by simpa [Nat.lt_succ_iff] using List.mem_range.mp hi)
  have hnd : ((List.range (occ.length + 1)).map (slugCandidate base)).Nodup :=
    (List.nodup_range _).map (slugCandidate_injective base)
  have := (hnd.subperm hsub).length_le
  simp at this

theorem slugSearch_spec (occ : List String) (base : String) :
    ∀ fuel i, (∃ k, i ≤ k ∧ k ≤ i + fuel ∧ slugCandidate base k ∉ occ) →
    ∃ k, i ≤ k ∧ slugSearch occ base fuel i = slugCandidate base k ∧
      slugCandidate base k ∉ occ ∧
      ∀ j, i ≤ j → j < k → slugCandidate base j ∈ occ := by
  intro fuel
  induction fuel with
  | zero =>
    intro i hex
    obtain ⟨k, hik, hki, hfree⟩ := hex
    have : k = i := by omega
    subst this
    exact ⟨k, le_refl k, rfl, hfree, fun j h1 h2 => absurd (lt_of_le_of_lt h1 h2)
      (lt_irrefl k)⟩
  | succ fuel ih =>
    intro i hex
    by_cases hc : slugCandidate base i ∈ occ
    · obtain ⟨k, hik, hki, hfree⟩ := hex
      have hik' : i + 1 ≤ k := by
        rcases Nat.eq_or_lt_of_le hik with h | h
        · exact absurd hc (h ▸ hfree)
        · omega
      obtain ⟨k', h1, h2, h3, h4⟩ := ih (i + 1) ⟨k, hik', by omega, hfree⟩
      refine ⟨k', by omega, ?_, h3, ?_⟩
      · simpa [slugSearch, hc] using h2
      · intro j hij hjk
        rcases Nat.eq_or_lt_of_le hij with h | h
        · exact h ▸ hc
        · exact h4 j h hjk
    · exact ⟨i, le_refl i, by simp [slugSearch, hc], hc,
        fun j h1 h2 => absurd (lt_of_le_of_lt h1 h2) (lt_irrefl i)⟩

/-- `_generate_unique_slug` returns the first free candidate: some index
`i` whose candidate is not among the occupied slugs, with every earlier
candidate occupied. -/
theorem generateUniqueSlug_spec (db : List SlugRecord) (self : SlugRecord)
    (uuidTok : String) :
    ∃ i, generateUniqueSlug db self uuidTok =
        slugCandidate (generateBaseSlug self uuidTok) i ∧
      slugCandidate (generateBaseSlug self uuidTok) i ∉ occupiedSlugs db self.pk ∧
      ∀ j < i, slugCandidate (generateBaseSlug self uuidTok) j ∈
        occupiedSlugs db self.pk := by
  obtain ⟨k0, hk0, hfree⟩ :=
    exists_free_candidate (occupiedSlugs db self.pk) (generateBaseSlug self uuidTok)
  obtain ⟨k, _, heq, hkfree, hprev⟩ :=
    slugSearch_spec (occupiedSlugs db self.pk) (generateBaseSlug self uuidTok)
      ((occupiedSlugs db self.pk).length + 1) 0 ⟨k0, Nat.zero_le _, by omega, hfree⟩
  exact ⟨k, heq, hkfree, fun j hj => hprev j (Nat.zero_le j) hj⟩

theorem generateBaseSlug_ne_empty (r : SlugRecord) (uuidTok : String)
    (h : uuidTok ≠ "") : generateBaseSlug r uuidTok ≠ "" := by
  unfold generateBaseSlug
  by_cases hb : slugify (slugSourceValue r) = ""
  · simp only [hb, if_pos rfl]
    intro hc
    have hdata : uuidTok.data.take 8 = [] := congrArg String.data hc
    have hne : uuidTok.data ≠ [] := fun hnil => h (String.ext hnil)
    cases hd : uuidTok.data with
    | nil => exact hne hd
    | cons a l => rw [hd] at hdata; simp [List.take] at hdata
  · simp [hb]

theorem slugCandidate_ne_empty {base : String} (hb : base ≠ "") :
    ∀ i, slugCandidate base i ≠ "" := by
  intro i
  match i with
  | 0 => exact hb
  | i + 1 =>
    intro hc
    have hdata : (base ++ "-" ++ natRepr (i + 2)).data = [] := congrArg String.data hc
    rw [String.data_append, String.data_append] at hdata
    rcases List.append_eq_nil.mp hdata with ⟨h1, _⟩
    rcases List.append_eq_nil.mp h1 with ⟨_, h3⟩
    exact absurd h3 (by decide)

/-- C3: for a sluggable record whose slug field is still empty, the first
`save` assigns a non-empty slug (the `uuid4` prefix fallback covers a
source field that slugifies to nothing — `str(uuid.uuid4())` being a
non-empty 36-character string), and any later `save` — in particular one
with a changed source field — leaves the slug unchanged. -/
theorem C3_slug_nonempty_then_stable (db : List SlugRecord) (self : SlugRecord)
    (uuidTok : String) (hfresh : self.slug = "") (huuid : uuidTok ≠ "") :
    (slugMixinSave db self uuidTok).slug ≠ "" ∧
    ∀ (db' : List SlugRecord) (newTitle uuidTok' : String),
      (slugMixinSave db'
        { slugMixinSave db self uuidTok with title := newTitle } uuidTok').slug =
        (slugMixinSave db self uuidTok).slug := by
  have hgen : generateUniqueSlug db self uuidTok ≠ "" := by
    obtain ⟨i, heq, _, _⟩ := generateUniqueSlug_spec db self uuidTok
    rw [heq]
    exact slugCandidate_ne_empty (generateBaseSlug_ne_empty self uuidTok huuid) i
  constructor
  · simpa [slugMixinSave, hfresh] using hgen
  · intro db' newTitle uuidTok'
    simp [slugMixinSave, hfresh, hgen]

/-- C3 witness: a blank title exercises the random-token fallback; the
slug comes out non-empty and survives a title change. -/
theorem C3_slug_nonempty_then_stable_witness :
    (slugMixinSave [] ⟨none, " ", "", false⟩ "3f2a9c1d-aaaa-4bbb-8ccc-000000000000").slug ≠ "" ∧
    ∀ (db' : List SlugRecord) (newTitle uuidTok' : String),
      (slugMixinSave db'
        { slugMixinSave [] ⟨none, " ", "", false⟩ "3f2a9c1d-aaaa-4bbb-8ccc-000000000000" with
            title := newTitle } uuidTok').slug =
        (slugMixinSave [] ⟨none, " ", "", false⟩ "3f2a9c1d-aaaa-4bbb-8ccc-000000000000").slug :=
  C3_slug_nonempty_then_stable [] ⟨none, " ", "", false⟩
    "3f2a9c1d-aaaa-4bbb-8ccc-000000000000" rfl (by decide)

/-- C4: when the base slug derived from the source text is already taken
by another record — the uniqueness check running against *all* rows
(soft-deleted included) minus the record's own row — the slug assigned at
first save is `base-k` with `k ≥ 2` the first free suffix: every earlier
suffix `base-m` (`2 ≤ m < k`) is taken, the result is taken by no other
record, and it differs from the base (hence from the first record's
slug). -/
theorem C4_slug_collision_numeric_suffix (db : List SlugRecord)
    (self : SlugRecord) (uuidTok : String) (hfresh : self.slug = "")
    (htaken : generateBaseSlug self uuidTok ∈ occupiedSlugs db self.pk) :
    ∃ k, 2 ≤ k ∧
      (slugMixinSave db self uuidTok).slug =
        generateBaseSlug self uuidTok ++ "-" ++ natRepr k ∧
      (slugMixinSave db self uuidTok).slug ∉ occupiedSlugs db self.pk ∧
      (∀ m, 2 ≤ m → m < k →
        generateBaseSlug self uuidTok ++ "-" ++ natRepr m ∈
          occupiedSlugs db self.pk) ∧
      (slugMixinSave db self uuidTok).slug ≠ generateBaseSlug self uuidTok := by
  obtain ⟨i, heq, hfree, hprev⟩ := generateUniqueSlug_spec db self uuidTok
  have hsave : (slugMixinSave db self uuidTok).slug =
      generateUniqueSlug db self uuidTok := by
    simp [slugMixinSave, hfresh]
  cases i with
  | zero => exact absurd htaken hfree
  | succ i' =>
    refine ⟨i' + 2, by omega, ?_, ?_, ?_, ?_⟩
    · rw [hsave, heq]; rfl
    · rw [hsave, heq]; exact hfree
    · intro m h2 hm
      have hlt : m - 2 + 1 < i' + 1 := by omega
      have hmem := hprev (m - 2 + 1) hlt
      have hform : slugCandidate (generateBaseSlug self uuidTok) (m - 2 + 1) =
          generateBaseSlug self uuidTok ++ "-" ++ natRepr (m - 2 + 2) := rfl
      have hm2 : m - 2 + 2 = m := by omega
      rw [hm2] at hform
      rwa [hform] at hmem
    · rw [hsave, heq]
      intro hc
      rw [← hc] at htaken
      exact hfree htaken

/-- C4 witness: the earlier record "Hello World" holds `hello-world` and
is soft-deleted; a new record whose title slugifies to the same base gets
`hello-world-2`. -/
theorem C4_slug_collision_numeric_suffix_witness :
    ∃ k, 2 ≤ k ∧
      (slugMixinSave [⟨some 1, "Hello World", "hello-world", true⟩]
          ⟨none, " Hello, World! ", "", false⟩ "u").slug =
        generateBaseSlug ⟨none, " Hello, World! ", "", false⟩ "u" ++ "-" ++ natRepr k ∧
      (slugMixinSave [⟨some 1, "Hello World", "hello-world", true⟩]
          ⟨none, " Hello, World! ", "", false⟩ "u").slug ∉
        occupiedSlugs [⟨some 1, "Hello World", "hello-world", true⟩] none ∧
      (∀ m, 2 ≤ m → m < k →
        generateBaseSlug ⟨none, " Hello, World! ", "", false⟩ "u" ++ "-" ++ natRepr m ∈
          occupiedSlugs [⟨some 1, "Hello World", "hello-world", true⟩] none) ∧
      (slugMixinSave [⟨some 1, "Hello World", "hello-world", true⟩]
          ⟨none, " Hello, World! ", "", false⟩ "u").slug ≠
        generateBaseSlug ⟨none, " Hello, World! ", "", false⟩ "u" :=
  C4_slug_collision_numeric_suffix [⟨some 1, "Hello World", "hello-world", true⟩]
    ⟨none, " Hello, World! ", "", false⟩ "u" rfl (by decide)

/-! ## Aggregate counting (`courses/managers.py`, `CourseQuerySet.with_full_counts`)

`with_full_counts()` annotates each course with
`Count("modules", distinct=True)`, `Count("modules__lessons", distinct=True)`
and `Count("enrollments", distinct=True)`.  The SQL behind the annotation is
a single query that LEFT OUTER JOINs the course row with its modules, their
lessons, and its enrollments, producing the full fan-out of combinations,
over which each aggregate counts DISTINCT primary keys. -/

/-- A `Module` row: pk and `course` foreign key (courses/models.py). -/
structure ModuleRow where
  pk : Nat
  course_id : Nat
  deriving DecidableEq, Repr

/-- A `Lesson` row: pk and `module` foreign key (courses/models.py). -/
structure LessonRow where
  pk : Nat
  module_id : Nat
  deriving DecidableEq, Repr

/-- An `Enrollment` row: pk, `student` and `course` foreign keys, and the
inherited soft-delete flag (enrollments/models.py). -/
structure EnrollmentRow where
  pk : Nat
  student_id : Nat
  course_id : Nat
  is_deleted : Bool
  deriving DecidableEq, Repr

/-- One side of a LEFT OUTER JOIN: an empty related set still yields a
single all-NULL partner row. -/
def optJoin (xs : List α) : List (Option α) :=
  if xs.isEmpty then [none] else xs.map some

/-- The modules of a course (rows whose `course` FK points at it). -/
def modulesOf (cpk : Nat) (mods : List ModuleRow) : List ModuleRow :=
  mods.filter fun m => m.course_id = cpk

/-- The lessons reached from a course through its modules
(`modules__lessons`). -/
def lessonsOf (cpk : Nat) (mods : List ModuleRow) (lsns : List LessonRow) :
    List LessonRow :=
  (modulesOf cpk mods).flatMap fun m => lsns.filter fun l => l.module_id = m.pk

/-- The enrollments of a course. -/
def enrollmentsOf (cpk : Nat) (enrs : List EnrollmentRow) : List EnrollmentRow :=
  enrs.filter fun e => e.course_id = cpk

/-- The LEFT-OUTER-JOIN row set of the single SQL query behind
`with_full_counts()`, restricted to one course: every combination of a
module partner, a lesson partner (through that module), and an enrollment
partner. -/
def fullCountsJoinRows (cpk : Nat) (mods : List ModuleRow)
    (lsns : List LessonRow) (enrs : List EnrollmentRow) :
    List (Option ModuleRow × Option LessonRow × Option EnrollmentRow) :=
  (optJoin (modulesOf cpk mods)).flatMap fun mo =>
    (optJoin (match mo with
      | some m => lsns.filter fun l => l.module_id = m.pk
      | none => [])).flatMap fun lo =>
      (optJoin (enrollmentsOf cpk enrs)).map fun eo => (mo, lo, eo)

/-- `COUNT(DISTINCT f(row))` over join rows: NULLs are not counted, and
duplicates created by the join fan-out are counted once. -/
def distinctCount
    (rows : List (Option ModuleRow × Option LessonRow × Option EnrollmentRow))
    (f : Option ModuleRow × Option LessonRow × Option EnrollmentRow → Option Nat) :
    Nat :=
  ((rows.filterMap f).dedup).length

/-- `CourseQuerySet.with_full_counts` for one course: the triple
`(modules_count, lessons_count, enrollments_count)`, each a distinct count
over the joined row set. -/
def withFullCounts (cpk : Nat) (mods : List ModuleRow) (lsns : List LessonRow)
    (enrs : List EnrollmentRow) : Nat × Nat × Nat :=
  let rows := fullCountsJoinRows cpk mods lsns enrs
  (distinctCount rows (fun r => r.1.map fun m => m.pk),
   distinctCount rows (fun r => r.2.1.map fun l => l.pk),
   distinctCount rows (fun r => r.2.2.map fun e => e.pk))

theorem mem_optJoin_some {xs : List α} {a : α} : some a ∈ optJoin xs ↔ a ∈ xs := by
  unfold optJoin
  split
  · rename_i h
    simp [List.isEmpty_iff.mp h]
  · simp

theorem optJoin_exists (xs : List α) : ∃ o, o ∈ optJoin xs := by
  unfold optJoin
  split
  · exact ⟨none, by simp⟩
  · rename_i h
    cases xs with
    | nil => simp at h
    | cons a l => exact ⟨some a, by simp⟩

theorem mem_join_moduleIds (cpk : Nat) (mods : List ModuleRow)
    (lsns : List LessonRow) (enrs : List EnrollmentRow) (x : Nat) :
    x ∈ (fullCountsJoinRows cpk mods lsns enrs).filterMap
        (fun r => r.1.map fun m => m.pk) ↔
    x ∈ (modulesOf cpk mods).map fun m => m.pk := by
  constructor
  · intro hx
    obtain ⟨row, hrow, hf⟩ := List.mem_filterMap.mp hx
    simp only [fullCountsJoinRows, List.mem_flatMap, List.mem_map] at hrow
    obtain ⟨mo, hmo, lo, hlo, eo, heo, rfl⟩ := hrow
    cases mo with
    | none => simp at hf
    | some m =>
      obtain rfl : m.pk = x := by simpa using hf
      exact List.mem_map.mpr ⟨m, mem_optJoin_some.mp hmo, rfl⟩
  · intro hx
    obtain ⟨m, hm, rfl⟩ := List.mem_map.mp hx
    obtain ⟨lo, hlo⟩ := optJoin_exists (lsns.filter fun l => l.module_id = m.pk)
    obtain ⟨eo, heo⟩ := optJoin_exists (enrollmentsOf cpk enrs)
    refine List.mem_filterMap.mpr ⟨(some m, lo, eo), ?_, rfl⟩
    simp only [fullCountsJoinRows, List.mem_flatMap, List.mem_map]
    exact ⟨some m, mem_optJoin_some.mpr hm, lo, hlo, eo, heo, rfl⟩

theorem mem_join_lessonIds (cpk : Nat) (mods : List ModuleRow)
    (lsns : List LessonRow) (enrs : List EnrollmentRow) (x : Nat) :
    x ∈ (fullCountsJoinRows cpk mods lsns enrs).filterMap
        (fun r => r.2.1.map fun l => l.pk) ↔
    x ∈ (lessonsOf cpk mods lsns).map fun l => l.pk := by
  constructor
  · intro hx
    obtain ⟨row, hrow, hf⟩ := List.mem_filterMap.mp hx
    simp only [fullCountsJoinRows, List.mem_flatMap, List.mem_map] at hrow
    obtain ⟨mo, hmo, lo, hlo, eo, heo, rfl⟩ := hrow
    cases lo with
    | none => simp at hf
    | some l =>
      obtain rfl : l.pk = x := by simpa using hf
      cases mo with
      | none => simp [optJoin] at hlo
      | some m =>
        have hl : l ∈ lsns.filter fun l => l.module_id = m.pk :=
          mem_optJoin_some.mp hlo
        refine List.mem_map.mpr ⟨l, ?_, rfl⟩
        exact List.mem_flatMap.mpr ⟨m, mem_optJoin_some.mp hmo, hl⟩
  · intro hx
    obtain ⟨l, hl, rfl⟩ := List.mem_map.mp hx
    obtain ⟨m, hm, hlm⟩ := List.mem_flatMap.mp hl
    obtain ⟨eo, heo⟩ := optJoin_exists (enrollmentsOf cpk enrs)
    refine List.mem_filterMap.mpr ⟨(some m, some l, eo), ?_, rfl⟩
    simp only [fullCountsJoinRows, List.mem_flatMap, List.mem_map]
    exact ⟨some m, mem_optJoin_some.mpr hm, some l, mem_optJoin_some.mpr hlm,
      eo, heo, rfl⟩

theorem mem_join_enrollmentIds (cpk : Nat) (mods : List ModuleRow)
    (lsns : List LessonRow) (enrs : List EnrollmentRow) (x : Nat) :
    x ∈ (fullCountsJoinRows cpk mods lsns enrs).filterMap
        (fun r => r.2.2.map fun e => e.pk) ↔
    x ∈ (enrollmentsOf cpk enrs).map fun e => e.pk := by
  constructor
  · intro hx
    obtain ⟨row, hrow, hf⟩ := List.mem_filterMap.mp hx
    simp only [fullCountsJoinRows, List.mem_flatMap, List.mem_map] at hrow
    obtain ⟨mo, hmo, lo, hlo, eo, heo, rfl⟩ := hrow
    cases eo with
    | none => simp at hf
    | some e =>
      obtain rfl : e.pk = x := by simpa using hf
      exact List.mem_map.mpr ⟨e, mem_optJoin_some.mp heo, rfl⟩
  · intro hx
    obtain ⟨e, he, rfl⟩ := List.mem_map.mp hx
    obtain ⟨mo, hmo⟩ := optJoin_exists (modulesOf cpk mods)
    obtain ⟨lo, hlo⟩ := optJoin_exists
      (match mo with
        | some m => lsns.filter fun l => l.module_id = m.pk
        | none => ([] : List LessonRow))
    refine List.mem_filterMap.mpr ⟨(mo, lo, some e), ?_, rfl⟩
    simp only [fullCountsJoinRows, List.mem_flatMap, List.mem_map]
    exact ⟨mo, hmo, lo, hlo, some e, mem_optJoin_some.mpr he, rfl⟩

theorem dedup_length_eq_of_mem_iff {l l' : List Nat}
    (h : ∀ x, x ∈ l ↔ x ∈ l') : l.dedup.length = l'.dedup.length := by
  have hfin : l.toFinset = l'.toFinset := by
    ext x
    simpa [List.mem_toFinset] using h x
  calc l.dedup.length = l.toFinset.card := (List.card_toFinset l).symm
    _ = l'.toFinset.card := by rw [hfin]
    _ = l'.dedup.length := List.card_toFinset l'

/-- The three distinct counts over the fanned-out join collapse to the
plain distinct counts of the three related sets — join fan-out does not
inflate them. -/
theorem withFullCounts_eq_direct (cpk : Nat) (mods : List ModuleRow)
    (lsns : List LessonRow) (enrs : List EnrollmentRow) :
    withFullCounts cpk mods lsns enrs =
      ((((modulesOf cpk mods).map fun m => m.pk).dedup).length,
       (((lessonsOf cpk mods lsns).map fun l => l.pk).dedup).length,
       (((enrollmentsOf cpk enrs).map fun e => e.pk).dedup).length) := by
  unfold withFullCounts distinctCount
  simp only [Prod.mk.injEq]
  exact ⟨dedup_length_eq_of_mem_iff (mem_join_moduleIds cpk mods lsns enrs),
    dedup_length_eq_of_mem_iff (mem_join_lessonIds cpk mods lsns enrs),
    dedup_length_eq_of_mem_iff (mem_join_enrollmentIds cpk mods lsns enrs)⟩

/-- C5: a course with exactly 2 modules, 3 lessons in each, and 5
enrollments is annotated `modules_count = 2`, `lessons_count = 6`,
`enrollments_count = 5`: the distinct counting makes the values immune to
the join fan-out (which here produces 2·3·5 = 30 joined rows). -/
theorem C5_with_full_counts (cpk : Nat) (mods : List ModuleRow)
    (lsns : List LessonRow) (enrs : List EnrollmentRow) (m1 m2 : ModuleRow)
    (hmods : modulesOf cpk mods = [m1, m2])
    (hmpk : m1.pk ≠ m2.pk)
    (hl1nd : (((lsns.filter fun l => l.module_id = m1.pk).map fun l => l.pk)).Nodup)
    (hl1len : (lsns.filter fun l => l.module_id = m1.pk).length = 3)
    (hl2nd : (((lsns.filter fun l => l.module_id = m2.pk).map fun l => l.pk)).Nodup)
    (hl2len : (lsns.filter fun l => l.module_id = m2.pk).length = 3)
    (hdisj : ((lsns.filter fun l => l.module_id = m1.pk).map fun l => l.pk).Disjoint
      ((lsns.filter fun l => l.module_id = m2.pk).map fun l => l.pk))
    (hend : (((enrollmentsOf cpk enrs).map fun e => e.pk)).Nodup)
    (henlen : (enrollmentsOf cpk enrs).length = 5) :
    withFullCounts cpk mods lsns enrs = (2, 6, 5) := by
  rw [withFullCounts_eq_direct]
  have h1 : (((modulesOf cpk mods).map fun m => m.pk).dedup).length = 2 := by
    rw [hmods]
    rw [List.dedup_eq_self.mpr (by simp [hmpk])]
    rfl
  have h2 : (((lessonsOf cpk mods lsns).map fun l => l.pk).dedup).length = 6 := by
    have hflat : lessonsOf cpk mods lsns =
        (lsns.filter fun l => l.module_id = m1.pk) ++
        (lsns.filter fun l => l.module_id = m2.pk) := by
      rw [lessonsOf, hmods]
      simp [List.flatMap]
    rw [hflat, List.map_append,
      List.dedup_eq_self.mpr (List.nodup_append.mpr ⟨hl1nd, hl2nd, hdisj⟩)]
    simp [hl1len, hl2len]
  have h3 : (((enrollmentsOf cpk enrs).map fun e => e.pk).dedup).length = 5 := by
    rw [List.dedup_eq_self.mpr hend]
    simp [henlen]
  simp only [Prod.mk.injEq]
  exact ⟨h1, h2, h3⟩

/-- C5 witness: a concrete course (pk 1) with modules 10 and 11, three
lessons under each, and five enrollments. -/
theorem C5_with_full_counts_witness :
    withFullCounts 1 [⟨10, 1⟩, ⟨11, 1⟩]
      [⟨100, 10⟩, ⟨101, 10⟩, ⟨102, 10⟩, ⟨103, 11⟩, ⟨104, 11⟩, ⟨105, 11⟩]
      [⟨200, 1, 1, false⟩, ⟨201, 2, 1, false⟩, ⟨202, 3, 1, false⟩,
       ⟨203, 4, 1, false⟩, ⟨204, 5, 1, true⟩] = (2, 6, 5) :=
  C5_with_full_counts 1 [⟨10, 1⟩, ⟨11, 1⟩]
    [⟨100, 10⟩, ⟨101, 10⟩, ⟨102, 10⟩, ⟨103, 11⟩, ⟨104, 11⟩, ⟨105, 11⟩]
    [⟨200, 1, 1, false⟩, ⟨201, 2, 1, false⟩, ⟨202, 3, 1, false⟩,
     ⟨203, 4, 1, false⟩, ⟨204, 5, 1, true⟩]
    ⟨10, 1⟩ ⟨11, 1⟩ (by decide) (by decide) (by decide) (by decide) (by decide)
    (by decide) (by intro a ha hb; simp at ha hb; omega) (by decide) (by decide)

/-! ## Enrollment workflow (`enrollments/views.py`, `enrollments/models.py`) -/

/-- The core of `enroll_in_course`:
`Enrollment.objects.get_or_create(student=student, course=course)`.
`objects` is the `SoftDeleteManager`, so the lookup runs over
non-deleted rows; a miss creates a fresh row (`is_deleted = false`,
next pk `newPk`).  Returns `(record, table, created)` mirroring
Django's `(obj, created)` pair. -/
def enrollGetOrCreate (db : List EnrollmentRow) (s c newPk : Nat) :
    EnrollmentRow × List EnrollmentRow × Bool :=
  match (db.filter fun e => !e.is_deleted).find?
      (fun e => e.student_id = s ∧ e.course_id = c) with
  | some e => (e, db, false)
  | none => (⟨newPk, s, c, false⟩, db ++ [⟨newPk, s, c, false⟩], true)

/-- C6: enrolling a student in a course twice leaves exactly one
`Enrollment` row for the pair; the first call creates it, the second call
is a no-op that returns the very record the first call created. -/
theorem C6_enroll_idempotent (db : List EnrollmentRow) (s c pk1 pk2 : Nat)
    (hnone : ∀ e ∈ db, ¬(e.student_id = s ∧ e.course_id = c)) :
    (enrollGetOrCreate db s c pk1).2.2 = true ∧
    ((enrollGetOrCreate (enrollGetOrCreate db s c pk1).2.1 s c pk2).1 =
      (enrollGetOrCreate db s c pk1).1) ∧
    (enrollGetOrCreate (enrollGetOrCreate db s c pk1).2.1 s c pk2).2.2 = false ∧
    ((enrollGetOrCreate (enrollGetOrCreate db s c pk1).2.1 s c pk2).2.1.filter
      fun e => e.student_id = s ∧ e.course_id = c).length = 1 := by
  have hfind1 : (db.filter fun e => !e.is_deleted).find?
      (fun e => decide (e.student_id = s ∧ e.course_id = c)) = none := by
    rw [List.find?_eq_none]
    intro e he
    simp only [decide_eq_true_eq]
    exact hnone e (List.mem_filter.mp he).1
  have h1 : enrollGetOrCreate db s c pk1 =
      (⟨pk1, s, c, false⟩, db ++ [⟨pk1, s, c, false⟩], true) := by
    unfold enrollGetOrCreate
    rw [hfind1]
  have hfind2 : ((db ++ [(⟨pk1, s, c, false⟩ : EnrollmentRow)]).filter
      fun e => !e.is_deleted).find?
      (fun e => decide (e.student_id = s ∧ e.course_id = c)) =
      some ⟨pk1, s, c, false⟩ := by
    rw [List.filter_append, List.find?_append, hfind1]
    simp
  have h2 : enrollGetOrCreate (db ++ [⟨pk1, s, c, false⟩]) s c pk2 =
      (⟨pk1, s, c, false⟩, db ++ [⟨pk1, s, c, false⟩], false) := by
    unfold enrollGetOrCreate
    rw [hfind2]
  rw [h1]
  simp only [h2]
  refine ⟨trivial, trivial, trivial, ?_⟩
  rw [List.filter_append]
  have hdbnil : (db.filter fun e => decide (e.student_id = s ∧ e.course_id = c)) = [] :=
    List.filter_eq_nil_iff.mpr (by
      intro e he
      simpa using hnone e he)
  rw [hdbnil]
  simp

/-- C6 witness: an unrelated pre-existing enrollment (student 7, course 2)
does not interfere; the (1, 2) pair ends up with exactly one row. -/
theorem C6_enroll_idempotent_witness :
    (enrollGetOrCreate [⟨50, 7, 2, false⟩] 1 2 51).2.2 = true ∧
    ((enrollGetOrCreate (enrollGetOrCreate [⟨50, 7, 2, false⟩] 1 2 51).2.1 1 2 52).1 =
      (enrollGetOrCreate [⟨50, 7, 2, false⟩] 1 2 51).1) ∧
    (enrollGetOrCreate (enrollGetOrCreate [⟨50, 7, 2, false⟩] 1 2 51).2.1 1 2 52).2.2 =
      false ∧
    ((enrollGetOrCreate (enrollGetOrCreate [⟨50, 7, 2, false⟩] 1 2 51).2.1 1 2 52).2.1.filter
      fun e => e.student_id = 1 ∧ e.course_id = 2).length = 1 :=
  C6_enroll_idempotent [⟨50, 7, 2, false⟩] 1 2 51 52 (by decide)

/-- A `LessonProgress` row (enrollments/models.py). -/
structure LessonProgressRow where
  pk : Nat
  enrollment_id : Nat
  lesson_id : Nat
  is_completed : Bool
  completed_at : Option Nat
  deriving DecidableEq, Repr

/-- `LessonProgress.save` (enrollments/models.py): before persisting,
`if self.is_completed and not self.completed_at: self.completed_at = timezone.now()`
`elif not self.is_completed: self.completed_at = None`
(`None` being the only falsy value a nullable datetime field takes). -/
def lessonProgressSave (p : LessonProgressRow) (now : Nat) : LessonProgressRow :=
  if p.is_completed && p.completed_at.isNone then { p with completed_at := some now }
  else if !p.is_completed then { p with completed_at := none }
  else p

/-- C7: starting from any row saved as incomplete, toggling
`is_completed` to true and saving stamps `completed_at` with the current
time (non-null); toggling back to false and saving clears it to null. -/
theorem C7_lesson_progress_completed_at (p : LessonProgressRow) (t0 t1 t2 : Nat) :
    (lessonProgressSave { lessonProgressSave { p with is_completed := false } t0 with
        is_completed := true } t1).completed_at = some t1 ∧
    (lessonProgressSave { lessonProgressSave { lessonProgressSave
        { p with is_completed := false } t0 with is_completed := true } t1 with
        is_completed := false } t2).completed_at = none := by
  constructor <;> simp [lessonProgressSave]

/-! ## Referential protection on hard delete (`core/models.py`,
`enrollments/models.py`)

`SoftDeleteModel.hard_delete` calls Django's real row deletion, whose
collector walks the foreign keys: `Module.course` and `Lesson.module` are
CASCADE, so a course's modules and their lessons are collected with it;
`Enrollment.course` and `LessonProgress.lesson` are PROTECT, so any
enrollment of the course or progress on a collected lesson aborts the
whole deletion with `ProtectedError` before anything is removed. -/

/-- A `Course` row; only the pk and the soft-delete flag matter here. -/
structure CourseRow where
  pk : Nat
  is_deleted : Bool
  deriving DecidableEq, Repr

/-- The relational store of the application. -/
structure SchoolDB where
  courses : List CourseRow
  modules : List ModuleRow
  lessons : List LessonRow
  enrollments : List EnrollmentRow
  lesson_progress : List LessonProgressRow
  deriving DecidableEq, Repr

/-- `Course.hard_delete()` through Django's deletion collector: collect
the course, its modules (CASCADE) and their lessons (CASCADE); if any
`Enrollment` still references the course, or any `LessonProgress` still
references a collected lesson (both PROTECT), fail with `ProtectedError`
(modelled as `Except.error ()`) and delete nothing; otherwise remove the
collected rows. -/
def hardDeleteCourse (db : SchoolDB) (cpk : Nat) : Except Unit SchoolDB :=
  let mods := db.modules.filter fun m => m.course_id = cpk
  let lsns := db.lessons.filter fun l => mods.any fun m => l.module_id = m.pk
  let protectingEnrollments := db.enrollments.filter fun e => e.course_id = cpk
  let protectingProgress :=
    db.lesson_progress.filter fun p => lsns.any fun l => p.lesson_id = l.pk
  if protectingEnrollments.isEmpty && protectingProgress.isEmpty then
    Except.ok { db with
      courses := db.courses.filter fun c => c.pk ≠ cpk,
      modules := db.modules.filter fun m => ¬m.course_id = cpk,
      lessons := db.lessons.filter fun l => ¬mods.any fun m => l.module_id = m.pk }
  else Except.error ()

/-- The store after attempting `hard_delete`: on `ProtectedError` the
transaction changes nothing. -/
def applyHardDeleteCourse (db : SchoolDB) (cpk : Nat) : SchoolDB :=
  match hardDeleteCourse db cpk with
  | Except.ok db' => db'
  | Except.error _ => db

/-- C9: hard-deleting a course that still has at least one enrollment
referencing it fails with the referential-protection error, and the store
— in particular the course row — is left unchanged. -/
theorem C9_hard_delete_protected (db : SchoolDB) (cpk : Nat)
    (e : EnrollmentRow) (hmem : e ∈ db.enrollments) (hc : e.course_id = cpk) :
    hardDeleteCourse db cpk = Except.error () ∧
    applyHardDeleteCourse db cpk = db := by
  have hne : (db.enrollments.filter fun e => e.course_id = cpk) ≠ [] :=
    List.ne_nil_of_mem (List.mem_filter.mpr ⟨hmem, by simp [hc]⟩)
  have hempty : (db.enrollments.filter fun e => e.course_id = cpk).isEmpty = false :=
    List.isEmpty_eq_false.mpr hne
  have herr : hardDeleteCourse db cpk = Except.error () := by
    unfold hardDeleteCourse
    simp [hempty]
  exact ⟨herr, by unfold applyHardDeleteCourse; rw [herr]⟩

/-- C9 witness: course 1 has an enrollment (pk 200), so hard delete
fails and the store is unchanged. -/
theorem C9_hard_delete_protected_witness :
    hardDeleteCourse ⟨[⟨1, false⟩], [⟨10, 1⟩], [⟨100, 10⟩], [⟨200, 3, 1, false⟩], []⟩ 1 =
      Except.error () ∧
    applyHardDeleteCourse
      ⟨[⟨1, false⟩], [⟨10, 1⟩], [⟨100, 10⟩], [⟨200, 3, 1, false⟩], []⟩ 1 =
      ⟨[⟨1, false⟩], [⟨10, 1⟩], [⟨100, 10⟩], [⟨200, 3, 1, false⟩], []⟩ :=
  C9_hard_delete_protected
    ⟨[⟨1, false⟩], [⟨10, 1⟩], [⟨100, 10⟩], [⟨200, 3, 1, false⟩], []⟩ 1
    ⟨200, 3, 1, false⟩ (by decide) rfl

end TrainingCenter
